import Mathlib

/-
Shallow embedding of the queue worker / batching dispatcher of the
hedgehog-rs PostHog client (src/client/queue.rs and src/client/mod.rs).

The worker drains an unbounded mpsc channel in cycles of at most
POSTHOG_BATCH_LIMIT envelopes, accumulates fire-and-forget CaptureEvent
bodies into a batch, dispatches every other envelope individually in
arrival order, and finally flushes the accumulated batch (if any) as one
CaptureBatch request carrying the api_key of the first accumulated event.

Network effects are modelled by an oracle `Net` mapping an issued call
(method, full url, body) to its outcome; every dispatch is recorded in a
trace of HttpCall values, and every one-shot response-channel signal in a
trace of Sig values.  Both panic sites of the worker task are modelled by
Option `none`: the `unwrap()` on the api_key lookup in the flush step, and
the `error_for_status().unwrap_err()` in send_request, which panics for a
non-success status outside the 4xx/5xx range (e.g. 304) because
error_for_status returns Ok there.  A panic kills the task, so it
propagates: once a dispatch panics, no later envelope of the cycle is
processed, no signal is sent, the batch is not flushed, and nothing of the
remaining queue runs.
-/

namespace Hedgehog

/-- Minimal model of serde_json::Value. -/
inductive Json where
  | null : Json
  | bool : Bool → Json
  | num : Int → Json
  | str : String → Json
  | arr : List Json → Json
  | obj : List (String × Json) → Json
  deriving Repr

/-- serde_json indexing `v["key"]`: field lookup on objects, Null otherwise. -/
def Json.index (v : Json) (key : String) : Json :=
  match v with
  | .obj fields =>
    match fields.find? (fun p => p.fst == key) with
    | some p => p.snd
    | none => .null
  | _ => .null

/-- serde_json `as_str`: Some only on strings. -/
def Json.asStr : Json → Option String
  | .str s => some s
  | _ => none

/-- reqwest::Method, restricted to the shapes the client uses. -/
inductive Method where
  | GET : Method
  | POST : Method
  | other : String → Method
  deriving Repr, DecidableEq

/-- src/client/queue.rs `enum PosthogRequest`. -/
inductive PosthogRequest where
  | CaptureEvent : (body : Json) → PosthogRequest
  | CaptureBatch : (body : Json) → PosthogRequest
  | EvaluateFeatureFlags : (body : Json) → PosthogRequest
  | GetEarlyAccessFeatures : (api_key : String) → PosthogRequest
  | Other : (method : Method) → (endpoint : String) → (json : Json) → PosthogRequest
  deriving Repr

/-- One-shot response channels are identified by a numeric id; the
oneshot::Sender itself lives outside the model. -/
abbrev ChanId := Nat

/-- src/client/queue.rs `struct QueuedRequest`: a request plus an optional
one-shot response channel. -/
structure QueuedRequest where
  request : PosthogRequest
  response_tx : Option ChanId
  deriving Repr

/-- src/client/mod.rs `POSTHOG_BATCH_LIMIT` (value 20). -/
def POSTHOG_BATCH_LIMIT : Nat := 20

/-- The single error kind of the client: PosthogError::HttpError, with the
underlying reqwest cause abstracted to its three sources. -/
inductive ErrorCause where
  | sendFailure : ErrorCause
  | statusError : (code : Nat) → ErrorCause
  | parseFailure : ErrorCause
  deriving Repr, DecidableEq

inductive PosthogError where
  | HttpError : ErrorCause → PosthogError
  deriving Repr, DecidableEq

/-- An HTTP call as issued by send_request: method, full url, JSON body. -/
structure HttpCall where
  method : Method
  url : String
  body : Json
  deriving Repr

/-- What the network does with one issued call: the send() future fails, or
a response arrives with a status code and (on success paths) a body that
parses to `some v` or fails to parse. -/
inductive NetOutcome where
  | transportFail : NetOutcome
  | status : (code : Nat) → (parsed : Option Json) → NetOutcome

/-- Network oracle: the outcome of each issued call. -/
abbrev Net := Method → String → Json → NetOutcome

/-- reqwest `StatusCode::is_success`: 2xx. -/
def isSuccess (code : Nat) : Bool :=
  decide (200 ≤ code) && decide (code < 300)

/-- reqwest `Response::error_for_status` returns Err exactly for client
errors (4xx) and server errors (5xx). -/
def isClientOrServerError (code : Nat) : Bool :=
  decide (400 ≤ code) && decide (code < 600)

/-- A signal delivered on a one-shot response channel. -/
abbrev Sig := ChanId × Except PosthogError Json

/-- QueueWorkerInner::send_request: issue `{base_url}/{endpoint}` and map
the outcome: transport failure → HttpError, success status → parsed JSON
body (parse failure → HttpError), non-success 4xx/5xx status →
HttpError via `error_for_status().unwrap_err()`.  For a non-success
status outside 4xx/5xx (e.g. 304), `error_for_status` returns Ok and the
`unwrap_err()` panics the worker task: result `none`.  Returns the issued
call (the HTTP exchange happened before any panic) with the result. -/
def send_request (base_url : String) (net : Net) (method : Method)
    (endpoint : String) (json : Json) :
    HttpCall × Option (Except PosthogError Json) :=
  let url := base_url ++ "/" ++ endpoint
  let call : HttpCall := { method := method, url := url, body := json }
  (call,
    match net method url json with
    | .transportFail => some (.error (.HttpError .sendFailure))
    | .status code parsed =>
      if isSuccess code then
        match parsed with
        | some v => some (.ok v)
        | none => some (.error (.HttpError .parseFailure))
      else if isClientOrServerError code then
        some (.error (.HttpError (.statusError code)))
      else none)

/-- The (method, endpoint, body) triple computed by the match at the top of
QueueWorkerInner::handle_request. -/
def route : PosthogRequest → Method × String × Json
  | .CaptureEvent body => (.POST, "capture", body)
  | .CaptureBatch body => (.POST, "batch", body)
  | .EvaluateFeatureFlags body => (.POST, "decide?v=3", body)
  | .GetEarlyAccessFeatures api_key =>
    (.GET, "api/early_access_features?api_key=" ++ api_key, .null)
  | .Other method endpoint json => (method, endpoint, json)

/-- QueueWorkerInner::handle_request: route the request, send it, and if a
response channel is present deliver the result there (exactly one signal);
otherwise no signal.  If send_request panics (`none`), the task dies
before `response_tx.send`: the call was issued but no signal exists. -/
def handle_request (base : String) (net : Net) (q : QueuedRequest) :
    HttpCall × Option (List Sig) :=
  let r := route q.request
  let s := send_request base net r.1 r.2.1 r.2.2
  (s.1,
    match s.2 with
    | none => none
    | some response =>
      some (match q.response_tx with
            | some tx => [(tx, response)]
            | none => []))

/-- One iteration of the `for request in buffer` loop in
QueueWorkerHandle::start: a CaptureEvent with no response channel is pushed
onto the batch accumulator; anything else is dispatched individually.
State: `some` (batch accumulator, calls issued so far, signals sent so
far), or `none` once the task has panicked — a dead task processes nothing
further. -/
def cycleStep (base : String) (net : Net)
    (st : Option (List Json × List HttpCall × List Sig))
    (q : QueuedRequest) :
    Option (List Json × List HttpCall × List Sig) :=
  match st with
  | none => none
  | some st =>
    match q.request, q.response_tx with
    | PosthogRequest.CaptureEvent body, none =>
      some (st.1 ++ [body], st.2.1, st.2.2)
    | req, tx =>
      let r := handle_request base net { request := req, response_tx := tx }
      match r.2 with
      | none => none
      | some sigs => some (st.1, st.2.1 ++ [r.1], st.2.2 ++ sigs)

/-- The flush at the end of a drain cycle (lines 109-124 of queue.rs): if
the accumulator is non-empty, read the api_key from the first accumulated
body (`unwrap`: `none` models the worker task panicking), build the batch
body and dispatch it as a CaptureBatch with no response channel; the
dispatch itself can also panic at `unwrap_err` on the batch response. -/
def flushBatch (base : String) (net : Net) (batch_capture : List Json) :
    Option (List HttpCall × List Sig) :=
  match batch_capture with
  | [] => some ([], [])
  | first :: _ =>
    match (Json.index first "api_key").asStr with
    | none => none
    | some api_key =>
      let body := Json.obj [("api_key", Json.str api_key),
                            ("batch", Json.arr batch_capture)]
      let r := handle_request base net
        { request := PosthogRequest.CaptureBatch body, response_tx := none }
      match r.2 with
      | none => none
      | some sigs => some ([r.1], sigs)

/-- One full drain cycle on an already-drained buffer: process every
envelope in arrival order, then flush the batch accumulator.  `none` means
the worker task panicked somewhere in the cycle (a 304-style status on any
dispatch, or the api_key unwrap) and the cycle never completed. -/
def drainCycle (base : String) (net : Net) (buffer : List QueuedRequest) :
    Option (List HttpCall × List Sig) :=
  match buffer.foldl (cycleStep base net) (some ([], [], [])) with
  | none => none
  | some st =>
    match flushBatch base net st.1 with
    | none => none
    | some fc => some (st.2.1 ++ fc.1, st.2.2 ++ fc.2)

/-- tokio `recv_many` on a closed channel holding `pending`: pull up to
`limit` envelopes from the front. -/
def recvMany (pending : List QueuedRequest) (limit : Nat) :
    List QueuedRequest × List QueuedRequest :=
  (pending.take limit, pending.drop limit)

/-- The worker loop of QueueWorkerHandle::start run to completion on a
closed channel holding `pending`: recv_many returns 0 only when nothing
remains, and the loop then returns.  The Nat argument is recursion fuel
(each cycle consumes at least one envelope, so `pending.length` fuel always
suffices, see workerRun); running out of fuel yields `none`. -/
def workerRunN (base : String) (net : Net) : Nat → List QueuedRequest →
    Option (List HttpCall × List Sig)
  | _, [] => some ([], [])
  | 0, _ :: _ => none
  | Nat.succ n, q :: rest =>
    let r := recvMany (q :: rest) POSTHOG_BATCH_LIMIT
    match drainCycle base net r.1, workerRunN base net n r.2 with
    | some out1, some out2 => some (out1.1 ++ out2.1, out1.2 ++ out2.2)
    | _, _ => none

/-- The worker loop with sufficient fuel. -/
def workerRun (base : String) (net : Net) (pending : List QueuedRequest) :
    Option (List HttpCall × List Sig) :=
  workerRunN base net pending.length pending

/-- An envelope is batchable iff it is a CaptureEvent with no response
channel (the guard on line 99 of queue.rs). -/
def isBatchable (q : QueuedRequest) : Bool :=
  match q.request, q.response_tx with
  | PosthogRequest.CaptureEvent _, none => true
  | _, _ => false

/-- The bodies accumulated into the batch in one cycle, in arrival order. -/
def batchBodies (buffer : List QueuedRequest) : List Json :=
  buffer.filterMap (fun q =>
    match q.request, q.response_tx with
    | PosthogRequest.CaptureEvent body, none => some body
    | _, _ => none)

/-- The non-batchable envelopes of a buffer, in arrival order. -/
def indivList (buffer : List QueuedRequest) : List QueuedRequest :=
  buffer.filter (fun q => !(isBatchable q))

/-- The calls issued for the individually dispatched envelopes of a cycle,
in arrival order. -/
def indivCalls (base : String) (net : Net) (buffer : List QueuedRequest) :
    List HttpCall :=
  (indivList buffer).map (fun q => (handle_request base net q).1)

/-- The response-channel signals sent for the individually dispatched
envelopes of a cycle, in arrival order (a panicking dispatch contributes
no signal). -/
def indivSigs (base : String) (net : Net) (buffer : List QueuedRequest) :
    List Sig :=
  (indivList buffer).flatMap (fun q => ((handle_request base net q).2).getD [])

theorem batchBodies_nil : batchBodies [] = [] := rfl

theorem indivList_nil : indivList [] = [] := rfl

theorem indivCalls_nil (base : String) (net : Net) :
    indivCalls base net [] = [] := rfl

theorem indivSigs_nil (base : String) (net : Net) :
    indivSigs base net [] = [] := rfl

theorem batchBodies_cons (q : QueuedRequest) (rest : List QueuedRequest) :
    batchBodies (q :: rest) = batchBodies [q] ++ batchBodies rest := by
  obtain ⟨req, tx⟩ := q
  cases req <;> cases tx <;> simp [batchBodies]

theorem batchBodies_singleton_not (q : QueuedRequest)
    (hb : isBatchable q = false) : batchBodies [q] = [] := by
  obtain ⟨req, tx⟩ := q
  cases req <;> cases tx <;> simp_all [batchBodies, isBatchable]

theorem indivList_cons_batchable (q : QueuedRequest)
    (rest : List QueuedRequest) (hb : isBatchable q = true) :
    indivList (q :: rest) = indivList rest := by
  simp [indivList, List.filter_cons, hb]

theorem indivList_cons_not (q : QueuedRequest) (rest : List QueuedRequest)
    (hb : isBatchable q = false) :
    indivList (q :: rest) = q :: indivList rest := by
  simp [indivList, List.filter_cons, hb]

/-- A dead task processes nothing further: once the state is `none`, the
rest of the cycle loop does nothing. -/
theorem foldl_cycleStep_none (base : String) (net : Net)
    (buffer : List QueuedRequest) :
    buffer.foldl (cycleStep base net) none = none := by
  induction buffer with
  | nil => rfl
  | cons q rest ih => simpa [cycleStep] using ih

/-- One loop iteration from a live state: push onto the accumulator, or
dispatch individually — panicking (`none`) if the dispatch panics. -/
theorem cycleStep_some_eq (base : String) (net : Net)
    (st0 : List Json × List HttpCall × List Sig) (q : QueuedRequest) :
    cycleStep base net (some st0) q =
      if isBatchable q then
        some (st0.1 ++ batchBodies [q], st0.2.1, st0.2.2)
      else
        match (handle_request base net q).2 with
        | none => none
        | some sigs =>
          some (st0.1, st0.2.1 ++ [(handle_request base net q).1],
                st0.2.2 ++ sigs) := by
  obtain ⟨req, tx⟩ := q
  cases req <;> cases tx <;> simp [cycleStep, isBatchable, batchBodies]

/-- The processing loop of a cycle, characterized: if it completes (no
panic), every individually dispatched envelope completed, and the final
state appends the batchable bodies to the accumulator and the individual
calls and signals to the traces, each in arrival order. -/
theorem foldl_cycleStep_some (base : String) (net : Net) :
    ∀ (buffer : List QueuedRequest)
      (st0 st : List Json × List HttpCall × List Sig),
    buffer.foldl (cycleStep base net) (some st0) = some st →
    (∀ q ∈ indivList buffer, ((handle_request base net q).2).isSome) ∧
    st = (st0.1 ++ batchBodies buffer,
          st0.2.1 ++ indivCalls base net buffer,
          st0.2.2 ++ indivSigs base net buffer) := by
  intro buffer
  induction buffer with
  | nil =>
    intro st0 st h
    simp only [List.foldl_nil, Option.some.injEq] at h
    constructor
    · simp [indivList]
    · simp [← h, batchBodies, indivCalls, indivSigs, indivList]
  | cons q rest ih =>
    intro st0 st h
    rw [List.foldl_cons, cycleStep_some_eq] at h
    by_cases hb : isBatchable q = true
    · rw [if_pos hb] at h
      obtain ⟨h1, h2⟩ := ih _ _ h
      constructor
      · intro p hp
        exact h1 p (by rwa [indivList_cons_batchable q rest hb] at hp)
      · rw [h2]
        have hbb := batchBodies_cons q rest
        have hil := indivList_cons_batchable q rest hb
        simp only [hbb, hil, indivCalls, indivSigs]
        simp [List.append_assoc]
    · have hb2 : isBatchable q = false := by simpa using hb
      rw [if_neg hb] at h
      cases hr : (handle_request base net q).2 with
      | none =>
        rw [hr] at h
        rw [foldl_cycleStep_none] at h
        cases h
      | some sigs =>
        rw [hr] at h
        obtain ⟨h1, h2⟩ := ih _ _ h
        constructor
        · intro p hp
          rw [indivList_cons_not q rest hb2] at hp
          rcases List.mem_cons.mp hp with rfl | hp2
          · simp [hr]
          · exact h1 p hp2
        · rw [h2]
          have hbb := batchBodies_cons q rest
          have hil := indivList_cons_not q rest hb2
          simp only [hbb, batchBodies_singleton_not q hb2, hil,
            indivCalls, indivSigs]
          simp [hr, List.append_assoc]

/-- An envelope with no response channel never produces a signal: its
dispatch either panics (`none`) or completes with an empty signal list. -/
theorem handle_request_no_channel (base : String) (net : Net)
    (q : QueuedRequest) (htx : q.response_tx = none) :
    (handle_request base net q).2 = none ∨
    (handle_request base net q).2 = some [] := by
  cases hs : (send_request base net (route q.request).1
      (route q.request).2.1 (route q.request).2.2).2 with
  | none => left; simp [handle_request, hs]
  | some r => right; simp [handle_request, hs, htx]

/-- A completed flush sends no response-channel signal: the synthesized
CaptureBatch envelope carries `response_tx := none`. -/
theorem flushBatch_sigs_nil (base : String) (net : Net)
    (batch_capture : List Json) (fc : List HttpCall × List Sig)
    (h : flushBatch base net batch_capture = some fc) : fc.2 = [] := by
  cases batch_capture with
  | nil => simp [flushBatch] at h; simp [← h]
  | cons first rest =>
    cases hks : (Json.index first "api_key").asStr with
    | none => simp [flushBatch, hks] at h
    | some k =>
      simp only [flushBatch, hks] at h
      rcases handle_request_no_channel base net
          ⟨PosthogRequest.CaptureBatch
            (Json.obj [("api_key", Json.str k),
                       ("batch", Json.arr (first :: rest))]), none⟩ rfl with
        hr | hr
      · rw [hr] at h; cases h
      · rw [hr] at h
        simp only [Option.some.injEq] at h
        simp [← h]

/-- A completed flush of a keyed non-empty accumulator is exactly one
POST base/batch carrying the shared api_key and the ordered bodies. -/
theorem flushBatch_some_shape (base : String) (net : Net) (b : Json)
    (bs : List Json) (k : String) (fc : List HttpCall × List Sig)
    (hk : (Json.index b "api_key").asStr = some k)
    (h : flushBatch base net (b :: bs) = some fc) :
    fc = ([{ method := Method.POST, url := base ++ "/" ++ "batch",
             body := Json.obj [("api_key", Json.str k),
                               ("batch", Json.arr (b :: bs))] }], []) := by
  simp only [flushBatch, hk] at h
  rcases handle_request_no_channel base net
      ⟨PosthogRequest.CaptureBatch
        (Json.obj [("api_key", Json.str k),
                   ("batch", Json.arr (b :: bs))]), none⟩ rfl with hr | hr
  · rw [hr] at h; cases h
  · rw [hr] at h
    simp only [Option.some.injEq] at h
    rw [← h]
    rfl

/-- Full characterization of a completed (non-panicking) drain cycle. -/
theorem drainCycle_some (base : String) (net : Net)
    (buffer : List QueuedRequest) (out : List HttpCall × List Sig)
    (h : drainCycle base net buffer = some out) :
    (out = (indivCalls base net buffer ++
             ((flushBatch base net (batchBodies buffer)).map Prod.fst).getD [],
            indivSigs base net buffer)) ∧
    (flushBatch base net (batchBodies buffer)).isSome := by
  unfold drainCycle at h
  cases hf : buffer.foldl (cycleStep base net) (some ([], [], [])) with
  | none => rw [hf] at h; cases h
  | some st =>
    rw [hf] at h
    obtain ⟨_, hst⟩ := foldl_cycleStep_some base net buffer ([], [], []) st hf
    simp only [List.nil_append] at hst
    subst hst
    simp only at h
    cases hfb : flushBatch base net (batchBodies buffer) with
    | none => rw [hfb] at h; cases h
    | some fc =>
      rw [hfb] at h
      have hsig := flushBatch_sigs_nil base net (batchBodies buffer) fc hfb
      simp only [Option.some.injEq] at h
      constructor
      · simp [← h, hsig]
      · simp [hfb]

/-- A network oracle answering every call with HTTP 200 and a Null body. -/
def netOk : Net := fun _ _ _ => NetOutcome.status 200 (some Json.null)

/-- A capture-event body as the client builds it: embedded api_key plus
event payload. -/
def evBody (e : String) : Json :=
  Json.obj [("api_key", Json.str "key1"), ("event", Json.str e)]

def buf1 : List QueuedRequest :=
  [⟨PosthogRequest.CaptureEvent (evBody "a"), none⟩,
   ⟨PosthogRequest.EvaluateFeatureFlags (Json.obj []), some 7⟩,
   ⟨PosthogRequest.CaptureEvent (evBody "b"), none⟩]

def out1 : List HttpCall × List Sig :=
  ([{ method := Method.POST, url := "h" ++ "/" ++ "decide?v=3",
      body := Json.obj [] },
    { method := Method.POST, url := "h" ++ "/" ++ "batch",
      body := Json.obj [("api_key", Json.str "key1"),
                        ("batch", Json.arr [evBody "a", evBody "b"])] }],
   [(7, Except.ok Json.null)])

/-- C1: in every drain cycle, the worker dispatches each non-batchable
envelope individually in arrival order, the batch body's event list is
exactly the bodies of the fire-and-forget CaptureEvent envelopes drained
in that cycle in arrival order with no duplication or loss, and the batch
is flushed as one call after all the individual dispatches of the cycle. -/
theorem drain_cycle_order_exact (base : String) (net : Net)
    (buffer : List QueuedRequest) (out : List HttpCall × List Sig)
    (h : drainCycle base net buffer = some out) :
    out.1 = indivCalls base net buffer ++
      ((flushBatch base net (batchBodies buffer)).map Prod.fst).getD [] ∧
    out.2 = indivSigs base net buffer ∧
    (batchBodies buffer = [] → out.1 = indivCalls base net buffer) ∧
    (∀ b bs k, batchBodies buffer = b :: bs →
      (Json.index b "api_key").asStr = some k →
      out.1 = indivCalls base net buffer ++
        [{ method := Method.POST, url := base ++ "/" ++ "batch",
           body := Json.obj [("api_key", Json.str k),
                             ("batch", Json.arr (batchBodies buffer))] }]) := by
  obtain ⟨hc, hfs⟩ := drainCycle_some base net buffer out h
  refine ⟨by rw [hc], by rw [hc], ?_, ?_⟩
  · intro hbb
    rw [hc, hbb]
    simp [flushBatch]
  · intro b bs k hbb hk
    rw [hbb] at hfs
    obtain ⟨fc, hfc⟩ := Option.isSome_iff_exists.mp hfs
    have hshape := flushBatch_some_shape base net b bs k fc hk hfc
    rw [hc, hbb, hfc, hshape]
    simp

theorem drain_cycle_order_exact_witness :
    out1.1 = indivCalls "h" netOk buf1 ++
      ((flushBatch "h" netOk (batchBodies buf1)).map Prod.fst).getD [] ∧
    out1.2 = indivSigs "h" netOk buf1 :=
  ⟨(drain_cycle_order_exact "h" netOk buf1 out1 rfl).1,
   (drain_cycle_order_exact "h" netOk buf1 out1 rfl).2.1⟩

/-- C2: an envelope whose request is CaptureEvent but whose response
channel is present is never added to the batch accumulator; the worker
dispatches it individually as a POST to the capture endpoint.  The issued
call is POST base/capture unconditionally; when the dispatch completes
with result r the cycle state gains exactly that call and the signal
(tx, r) with the accumulator unchanged; and whatever the outcome, the
accumulator never receives the body. -/
theorem capture_event_with_channel_individual (base : String) (net : Net) :
    (∀ body tx, (handle_request base net
        ⟨PosthogRequest.CaptureEvent body, some tx⟩).1 =
      { method := Method.POST, url := base ++ "/" ++ "capture",
        body := body }) ∧
    (∀ (st : List Json × List HttpCall × List Sig) body tx r,
      (send_request base net Method.POST "capture" body).2 = some r →
      cycleStep base net (some st)
          ⟨PosthogRequest.CaptureEvent body, some tx⟩ =
        some (st.1,
          st.2.1 ++ [{ method := Method.POST,
                       url := base ++ "/" ++ "capture", body := body }],
          st.2.2 ++ [(tx, r)])) ∧
    (∀ (st st2 : List Json × List HttpCall × List Sig) body tx,
      cycleStep base net (some st)
          ⟨PosthogRequest.CaptureEvent body, some tx⟩ = some st2 →
      st2.1 = st.1) := by
  refine ⟨fun _ _ => rfl, ?_, ?_⟩
  · intro st body tx r hsr
    have hh : (handle_request base net
        ⟨PosthogRequest.CaptureEvent body, some tx⟩).2 = some [(tx, r)] := by
      simp [handle_request, route, hsr]
    simp [cycleStep, hh]
    rfl
  · intro st st2 body tx h
    simp only [cycleStep] at h
    cases hr : (handle_request base net
        ⟨PosthogRequest.CaptureEvent body, some tx⟩).2 with
    | none => rw [hr] at h; cases h
    | some sigs =>
      rw [hr] at h
      simp only [Option.some.injEq] at h
      rw [← h]

theorem capture_event_with_channel_individual_witness :
    cycleStep "h" netOk (some ([], [], []))
        ⟨PosthogRequest.CaptureEvent (evBody "a"), some 4⟩ =
      some ([],
        [{ method := Method.POST, url := "h" ++ "/" ++ "capture",
           body := evBody "a" }],
        [(4, Except.ok Json.null)]) :=
  (capture_event_with_channel_individual "h" netOk).2.1 ([], [], [])
    (evBody "a") 4 (Except.ok Json.null) rfl

/-- C3: a drain cycle pulls at most POSTHOG_BATCH_LIMIT = 20 envelopes
from the inbound channel, whatever the queue depth. -/
theorem drain_pull_capped (pending : List QueuedRequest) :
    (recvMany pending POSTHOG_BATCH_LIMIT).1.length ≤ POSTHOG_BATCH_LIMIT ∧
    POSTHOG_BATCH_LIMIT = 20 := by
  refine ⟨?_, rfl⟩
  simp [recvMany, POSTHOG_BATCH_LIMIT]

def buf5 : List QueuedRequest :=
  [⟨PosthogRequest.CaptureEvent (evBody "a"), none⟩,
   ⟨PosthogRequest.CaptureEvent (evBody "b"), none⟩]

/-- C5: whenever a drain cycle completes with a non-empty batch
accumulator (whose first accumulated body carries a string api_key), the
worker issued exactly one CaptureBatch call, after all the individual
dispatches, whose body is an object with "api_key" equal to the first
event's key and "batch" equal to the ordered list of accumulated bodies,
and with no response channel (no signal beyond the individual ones). -/
theorem batch_flush_shape (base : String) (net : Net)
    (buffer : List QueuedRequest) (b : Json) (bs : List Json) (k : String)
    (out : List HttpCall × List Sig)
    (h1 : batchBodies buffer = b :: bs)
    (h2 : (Json.index b "api_key").asStr = some k)
    (h3 : drainCycle base net buffer = some out) :
    out = (indivCalls base net buffer ++
        [{ method := Method.POST, url := base ++ "/" ++ "batch",
           body := Json.obj [("api_key", Json.str k),
                             ("batch", Json.arr (b :: bs))] }],
        indivSigs base net buffer) := by
  obtain ⟨hc, hfs⟩ := drainCycle_some base net buffer out h3
  rw [h1] at hfs
  obtain ⟨fc, hfc⟩ := Option.isSome_iff_exists.mp hfs
  have hshape := flushBatch_some_shape base net b bs k fc h2 hfc
  rw [hc, h1, hfc, hshape]
  simp

theorem batch_flush_shape_witness :
    (([{ method := Method.POST, url := "h" ++ "/" ++ "batch",
         body := Json.obj [("api_key", Json.str "key1"),
                           ("batch", Json.arr [evBody "a", evBody "b"])] }],
      []) : List HttpCall × List Sig) =
      (indivCalls "h" netOk buf5 ++
        [{ method := Method.POST, url := "h" ++ "/" ++ "batch",
           body := Json.obj [("api_key", Json.str "key1"),
                             ("batch", Json.arr [evBody "a", evBody "b"])] }],
        indivSigs "h" netOk buf5) :=
  batch_flush_shape "h" netOk buf5 (evBody "a") [evBody "b"] "key1"
    ([{ method := Method.POST, url := "h" ++ "/" ++ "batch",
        body := Json.obj [("api_key", Json.str "key1"),
                          ("batch", Json.arr [evBody "a", evBody "b"])] }],
     []) rfl rfl rfl

def buf6 : List QueuedRequest :=
  [⟨PosthogRequest.GetEarlyAccessFeatures "key1", some 3⟩]

/-- C6: if a drain cycle completes with an empty batch accumulator, the
cycle issued only the individual dispatches — no synthesized batch call. -/
theorem no_batch_when_accumulator_empty (base : String) (net : Net)
    (buffer : List QueuedRequest) (out : List HttpCall × List Sig)
    (h1 : batchBodies buffer = [])
    (h2 : drainCycle base net buffer = some out) :
    out = (indivCalls base net buffer, indivSigs base net buffer) := by
  obtain ⟨hc, _⟩ := drainCycle_some base net buffer out h2
  rw [hc, h1]
  simp [flushBatch]

theorem no_batch_when_accumulator_empty_witness :
    (([{ method := Method.GET,
         url := "h" ++ "/" ++ ("api/early_access_features?api_key=" ++ "key1"),
         body := Json.null }],
      [(3, Except.ok Json.null)]) : List HttpCall × List Sig) =
      (indivCalls "h" netOk buf6, indivSigs "h" netOk buf6) :=
  no_batch_when_accumulator_empty "h" netOk buf6
    ([{ method := Method.GET,
        url := "h" ++ "/" ++ ("api/early_access_features?api_key=" ++ "key1"),
        body := Json.null }],
     [(3, Except.ok Json.null)]) rfl rfl

/-- C7: the active variant of a request deterministically fixes the HTTP
method and endpoint of its dispatch, and the URL is the base URL joined
with a slash and that endpoint: CaptureEvent → POST capture, CaptureBatch
→ POST batch, EvaluateFeatureFlags → POST decide?v=3,
GetEarlyAccessFeatures → GET api/early_access_features?api_key=key,
Other → the caller-specified method and endpoint. -/
theorem variant_determines_dispatch (base : String) (net : Net) :
    (∀ b tx, (handle_request base net
        ⟨PosthogRequest.CaptureEvent b, tx⟩).1 =
      { method := Method.POST, url := base ++ "/" ++ "capture",
        body := b }) ∧
    (∀ b tx, (handle_request base net
        ⟨PosthogRequest.CaptureBatch b, tx⟩).1 =
      { method := Method.POST, url := base ++ "/" ++ "batch",
        body := b }) ∧
    (∀ b tx, (handle_request base net
        ⟨PosthogRequest.EvaluateFeatureFlags b, tx⟩).1 =
      { method := Method.POST, url := base ++ "/" ++ "decide?v=3",
        body := b }) ∧
    (∀ k tx, (handle_request base net
        ⟨PosthogRequest.GetEarlyAccessFeatures k, tx⟩).1 =
      { method := Method.GET,
        url := base ++ "/" ++ ("api/early_access_features?api_key=" ++ k),
        body := Json.null }) ∧
    (∀ m e j tx, (handle_request base net
        ⟨PosthogRequest.Other m e j, tx⟩).1 =
      { method := m, url := base ++ "/" ++ e, body := j }) :=
  ⟨fun _ _ => rfl, fun _ _ => rfl, fun _ _ => rfl, fun _ _ => rfl,
   fun _ _ _ _ => rfl⟩

/-- C8 counterexample: HTTP 304 is a non-success status, yet send_request
returns no error value there — `error_for_status` returns Ok for a status
outside 4xx/5xx, so `unwrap_err()` panics the worker task (`none`), which
refutes the claim that every non-success status yields an HTTP-error
value. -/
theorem send_request_result_mapping_cex :
    isSuccess 304 = false ∧
    isClientOrServerError 304 = false ∧
    (send_request "h" (fun _ _ _ => NetOutcome.status 304 none)
      Method.POST "capture" Json.null).2 = none :=
  ⟨rfl, rfl, rfl⟩

/-- C8 (amended): send_request returns the parsed JSON body when the
status is a success and the body parses; a transport failure, a parse
failure, and a non-success status in the 4xx/5xx range all yield an error
of the single HttpError kind — in particular an HTTP 500 on a
response-awaited request yields an error value, never a parsed body.  For
a non-success status outside 4xx/5xx (e.g. 304), `error_for_status`
returns Ok and `unwrap_err()` panics the worker task instead of
returning. -/
theorem send_request_result_mapping (base : String) (net : Net)
    (m : Method) (e : String) (j : Json) :
    (∀ code v, net m (base ++ "/" ++ e) j = NetOutcome.status code (some v) →
      isSuccess code = true →
      (send_request base net m e j).2 = some (Except.ok v)) ∧
    (∀ code parsed, net m (base ++ "/" ++ e) j = NetOutcome.status code parsed →
      isSuccess code = false → isClientOrServerError code = true →
      (send_request base net m e j).2 =
        some (Except.error (PosthogError.HttpError (ErrorCause.statusError code)))) ∧
    (net m (base ++ "/" ++ e) j = NetOutcome.transportFail →
      (send_request base net m e j).2 =
        some (Except.error (PosthogError.HttpError ErrorCause.sendFailure))) ∧
    (∀ code, net m (base ++ "/" ++ e) j = NetOutcome.status code none →
      isSuccess code = true →
      (send_request base net m e j).2 =
        some (Except.error (PosthogError.HttpError ErrorCause.parseFailure))) ∧
    (∀ code parsed, net m (base ++ "/" ++ e) j = NetOutcome.status code parsed →
      isSuccess code = false → isClientOrServerError code = false →
      (send_request base net m e j).2 = none) ∧
    (∀ err, (send_request base net m e j).2 = some (Except.error err) →
      ∃ cause, err = PosthogError.HttpError cause) := by
  refine ⟨?_, ?_, ?_, ?_, ?_, ?_⟩
  · intro code v hnet hs
    simp [send_request, hnet, hs]
  · intro code parsed hnet hs he
    simp [send_request, hnet, hs, he]
  · intro hnet
    simp [send_request, hnet]
  · intro code hnet hs
    simp [send_request, hnet, hs]
  · intro code parsed hnet hs he
    simp [send_request, hnet, hs, he]
  · intro err _
    cases err with
    | HttpError cause => exact ⟨cause, rfl⟩

theorem send_request_result_mapping_witness :
    (send_request "h" (fun _ _ _ => NetOutcome.status 500 none)
      Method.POST "capture" Json.null).2 =
      some (Except.error (PosthogError.HttpError (ErrorCause.statusError 500))) :=
  (send_request_result_mapping "h" (fun _ _ _ => NetOutcome.status 500 none)
    Method.POST "capture" Json.null).2.1 500 none rfl rfl rfl

def buf10 : List QueuedRequest :=
  [⟨PosthogRequest.CaptureEvent (Json.obj [("event", Json.str "x")]), none⟩]

/-- C10: the batch flush unwraps the "api_key" field of the first
accumulated body; if that field is absent or not a string, the worker task
panics (modelled by drainCycle = none) instead of returning an error or
dropping the batch. -/
theorem batch_flush_panics_without_api_key (base : String) (net : Net)
    (buffer : List QueuedRequest) (b : Json) (bs : List Json)
    (h1 : batchBodies buffer = b :: bs)
    (h2 : (Json.index b "api_key").asStr = none) :
    drainCycle base net buffer = none := by
  unfold drainCycle
  cases hf : buffer.foldl (cycleStep base net) (some ([], [], [])) with
  | none => rfl
  | some st =>
    obtain ⟨_, hst⟩ := foldl_cycleStep_some base net buffer ([], [], []) st hf
    simp only [List.nil_append] at hst
    subst hst
    simp only
    rw [h1]
    simp [flushBatch, h2]

theorem batch_flush_panics_without_api_key_witness :
    drainCycle "h" netOk buf10 = none :=
  batch_flush_panics_without_api_key "h" netOk buf10
    (Json.obj [("event", Json.str "x")]) [] rfl rfl

theorem indivList_append (a b : List QueuedRequest) :
    indivList (a ++ b) = indivList a ++ indivList b := by
  simp [indivList, List.filter_append]

theorem indivSigs_append (base : String) (net : Net)
    (a b : List QueuedRequest) :
    indivSigs base net (a ++ b) =
      indivSigs base net a ++ indivSigs base net b := by
  simp [indivSigs, indivList_append]

/-- The per-cycle payload a non-panicking drain cycle contributes to the
call trace: the individual calls, then the flush call (if any). -/
def cycleCalls (base : String) (net : Net) (buffer : List QueuedRequest) :
    List HttpCall :=
  indivCalls base net buffer ++
    ((flushBatch base net (batchBodies buffer)).map Prod.fst).getD []

/-- The worker loop on a closed channel, fully characterized: when it
completes without panicking, the pending envelopes split into consecutive
non-empty chunks of at most POSTHOG_BATCH_LIMIT, each chunk is one
non-panicking drain cycle, the call trace is the concatenation of the
per-cycle traces, and the signal trace is exactly one signal per awaiting
envelope over all of pending, in order. -/
theorem workerRunN_spec (base : String) (net : Net) :
    ∀ (n : Nat) (pending : List QueuedRequest) (calls : List HttpCall)
      (sigs : List Sig),
    pending.length ≤ n →
    workerRunN base net n pending = some (calls, sigs) →
    ∃ chunks : List (List QueuedRequest),
      chunks.flatten = pending ∧
      (∀ c ∈ chunks, c ≠ [] ∧ c.length ≤ POSTHOG_BATCH_LIMIT ∧
        drainCycle base net c =
          some (cycleCalls base net c, indivSigs base net c)) ∧
      calls = (chunks.map (cycleCalls base net)).flatten ∧
      sigs = indivSigs base net pending := by
  intro n
  induction n with
  | zero =>
    intro pending calls sigs hlen h
    have hnil : pending = [] := List.length_eq_zero.mp (Nat.le_zero.mp hlen)
    subst hnil
    simp [workerRunN] at h
    obtain ⟨h1, h2⟩ := h
    exact ⟨[], by simp, by simp, by simp [← h1],
      by simp [← h2, indivSigs, indivList]⟩
  | succ n ih =>
    intro pending calls sigs hlen h
    cases pending with
    | nil =>
      simp [workerRunN] at h
      obtain ⟨h1, h2⟩ := h
      exact ⟨[], by simp, by simp, by simp [← h1],
        by simp [← h2, indivSigs, indivList]⟩
    | cons q rest =>
      simp only [workerRunN, recvMany] at h
      cases hd : drainCycle base net ((q :: rest).take POSTHOG_BATCH_LIMIT) with
      | none => rw [hd] at h; cases h
      | some out1 =>
        rw [hd] at h
        cases hw : workerRunN base net n ((q :: rest).drop POSTHOG_BATCH_LIMIT) with
        | none => rw [hw] at h; cases h
        | some out2 =>
          rw [hw] at h
          simp only [Option.some.injEq, Prod.mk.injEq] at h
          obtain ⟨hcalls, hsigs⟩ := h
          have hlen2 : ((q :: rest).drop POSTHOG_BATCH_LIMIT).length ≤ n := by
            simp only [List.length_drop, List.length_cons,
              POSTHOG_BATCH_LIMIT] at *
            omega
          obtain ⟨chunks2, hj, hprop, hcalls2, hsigs2⟩ :=
            ih ((q :: rest).drop POSTHOG_BATCH_LIMIT) out2.1 out2.2 hlen2
              (by rw [hw])
          have hchar := (drainCycle_some base net
            ((q :: rest).take POSTHOG_BATCH_LIMIT) out1 hd).1
          refine ⟨(q :: rest).take POSTHOG_BATCH_LIMIT :: chunks2, ?_, ?_, ?_, ?_⟩
          · simp [hj]
          · intro c hc
            rcases List.mem_cons.mp hc with hc1 | hc2
            · subst hc1
              refine ⟨by simp [POSTHOG_BATCH_LIMIT], by simp, ?_⟩
              rw [hd, hchar]
              rfl
            · exact hprop c hc2
          · rw [← hcalls, hcalls2, hchar]
            simp [cycleCalls]
          · rw [← hsigs, hsigs2, hchar]
            have := List.take_append_drop POSTHOG_BATCH_LIMIT (q :: rest)
            calc (indivCalls base net ((q :: rest).take POSTHOG_BATCH_LIMIT) ++
                    ((flushBatch base net (batchBodies ((q :: rest).take POSTHOG_BATCH_LIMIT))).map
                      Prod.fst).getD [],
                  indivSigs base net ((q :: rest).take POSTHOG_BATCH_LIMIT)).2 ++
                  indivSigs base net ((q :: rest).drop POSTHOG_BATCH_LIMIT)
                = indivSigs base net ((q :: rest).take POSTHOG_BATCH_LIMIT ++
                    (q :: rest).drop POSTHOG_BATCH_LIMIT) := by
                  rw [indivSigs_append]
              _ = indivSigs base net (q :: rest) := by rw [this]

def buf4 : List QueuedRequest :=
  [⟨PosthogRequest.CaptureEvent (evBody "a"), none⟩,
   ⟨PosthogRequest.GetEarlyAccessFeatures "key1", some 9⟩]

/-- C4: once the inbound channel is closed, the worker loop processes the
remaining envelopes in chunks of at most POSTHOG_BATCH_LIMIT that cover
the queue exactly once each (no envelope dispatched twice, none skipped:
every envelope of every chunk is either folded into that chunk's batch or
dispatched individually), and on an empty queue it terminates immediately
(terminal state). -/
theorem worker_terminates_and_drains_all (base : String) (net : Net)
    (pending : List QueuedRequest) (calls : List HttpCall) (sigs : List Sig)
    (h : workerRun base net pending = some (calls, sigs)) :
    workerRun base net [] = some ([], []) ∧
    sigs = indivSigs base net pending ∧
    ∃ chunks : List (List QueuedRequest),
      chunks.flatten = pending ∧
      (∀ c ∈ chunks, c ≠ [] ∧ c.length ≤ POSTHOG_BATCH_LIMIT ∧
        drainCycle base net c =
          some (cycleCalls base net c, indivSigs base net c)) ∧
      calls = (chunks.map (cycleCalls base net)).flatten := by
  obtain ⟨chunks, h1, h2, h3, h4⟩ :=
    workerRunN_spec base net pending.length pending calls sigs
      (Nat.le_refl _) h
  exact ⟨rfl, h4, chunks, h1, h2, h3⟩

theorem worker_terminates_and_drains_all_witness :
    workerRun "h" netOk [] = some ([], []) ∧
    ([((9 : ChanId), (Except.ok Json.null : Except PosthogError Json))] :
        List Sig) = indivSigs "h" netOk buf4 :=
  ⟨(worker_terminates_and_drains_all "h" netOk buf4
      [{ method := Method.GET,
         url := "h" ++ "/" ++ ("api/early_access_features?api_key=" ++ "key1"),
         body := Json.null },
       { method := Method.POST, url := "h" ++ "/" ++ "batch",
         body := Json.obj [("api_key", Json.str "key1"),
                           ("batch", Json.arr [evBody "a"])] }]
      [(9, Except.ok Json.null)] rfl).1,
   (worker_terminates_and_drains_all "h" netOk buf4
      [{ method := Method.GET,
         url := "h" ++ "/" ++ ("api/early_access_features?api_key=" ++ "key1"),
         body := Json.null },
       { method := Method.POST, url := "h" ++ "/" ++ "batch",
         body := Json.obj [("api_key", Json.str "key1"),
                           ("batch", Json.arr [evBody "a"])] }]
      [(9, Except.ok Json.null)] rfl).2.1⟩

def buf9 : List QueuedRequest :=
  [⟨PosthogRequest.EvaluateFeatureFlags (Json.obj []), some 5⟩]

/-- C9: every envelope carrying a response channel is signaled at most
once — exactly once when its dispatch completes, with one value that is
the parsed response or an error; zero times when the task panics on that
dispatch (it dies before response_tx.send); envelopes without a channel
produce no signal; and a channel belonging to no drained envelope is
never signaled (so an envelope the worker never processes is never
signaled). -/
theorem response_channel_signaled_once (base : String) (net : Net)
    (buffer : List QueuedRequest) (out : List HttpCall × List Sig)
    (h : drainCycle base net buffer = some out) :
    out.2 = indivSigs base net buffer ∧
    (∀ q tx r, q.response_tx = some tx →
      (send_request base net (route q.request).1
        (route q.request).2.1 (route q.request).2.2).2 = some r →
      (handle_request base net q).2 = some [(tx, r)]) ∧
    (∀ q tx, q.response_tx = some tx →
      (send_request base net (route q.request).1
        (route q.request).2.1 (route q.request).2.2).2 = none →
      (handle_request base net q).2 = none) ∧
    (∀ q sigs, q.response_tx = none →
      (handle_request base net q).2 = some sigs → sigs = []) ∧
    (∀ t, (∀ q ∈ buffer, q.response_tx ≠ some t) →
      ∀ s ∈ out.2, s.1 ≠ t) := by
  obtain ⟨hc, _⟩ := drainCycle_some base net buffer out h
  refine ⟨by rw [hc], ?_, ?_, ?_, ?_⟩
  · intro q tx r htx hsr
    simp [handle_request, htx, hsr]
  · intro q tx htx hsr
    simp [handle_request, htx, hsr]
  · intro q sigs htx hq
    rcases handle_request_no_channel base net q htx with hr | hr <;>
      rw [hr] at hq
    · cases hq
    · simp only [Option.some.injEq] at hq
      rw [← hq]
  · intro t hnot s hs
    rw [hc] at hs
    simp only [indivSigs, List.mem_flatMap] at hs
    obtain ⟨q, hq, hsq⟩ := hs
    have hqb : q ∈ buffer := List.mem_of_mem_filter hq
    cases htx : q.response_tx with
    | none =>
      rcases handle_request_no_channel base net q htx with hr | hr <;>
        rw [hr] at hsq <;> simp at hsq
    | some tx =>
      cases hs2 : (send_request base net (route q.request).1
          (route q.request).2.1 (route q.request).2.2).2 with
      | none =>
        have hr : (handle_request base net q).2 = none := by
          simp [handle_request, hs2]
        rw [hr] at hsq
        simp at hsq
      | some r =>
        have hr : (handle_request base net q).2 = some [(tx, r)] := by
          simp [handle_request, hs2, htx]
        rw [hr] at hsq
        simp only [Option.getD_some, List.mem_singleton] at hsq
        subst hsq
        intro he
        exact hnot q hqb (by rw [htx, show tx = t from he])

theorem response_channel_signaled_once_witness :
    ([((5 : ChanId), (Except.ok Json.null : Except PosthogError Json))] :
        List Sig) = indivSigs "h" netOk buf9 :=
  (response_channel_signaled_once "h" netOk buf9
    ([{ method := Method.POST, url := "h" ++ "/" ++ "decide?v=3",
        body := Json.obj [] }],
     [(5, Except.ok Json.null)]) rfl).1

end Hedgehog
